import Mathlib

/-!
Verification development for `gusc::Threads` (`src/include/Threads/Thread.hpp`).

The C++ `Thread` class is embedded shallowly.  Callables are identified by
natural-number ids; executing a callable is recorded in a history field of the
state.  Clock readings (`std::chrono::steady_clock::now()`) and heap addresses
of `std::shared_ptr` allocations are external, nondeterministic inputs, so
they appear as explicit parameters of the operations that consume them.

Two history fields (`executed`, `enqueued`) are observation variables that do
not exist in the C++ object; they record, in order, the ids executed via
`Message::call` and the ids ever pushed into `messageQueue`.  No operation
reads them.
-/

namespace Threads

/-- The three programmer-usage errors thrown by `Thread` (as
`std::runtime_error` with distinct texts, lines 81, 98, 124, 145, 175, 187). -/
inductive ThreadError where
  | alreadyStarted
  | notStarted
  | notAcceptingMessages
deriving DecidableEq, Repr

/-- `Thread::DelayedMessageWrapper` (lines 402–438): scheduled fire time,
the heap address at which the owning `shared_ptr`'s pointee was allocated
(the key actually compared by the `std::multiset`), the atomically readable
cancelled flag, and the wrapped message (`none` models a null
`unique_ptr<Message>`).  The message is the id of the wrapped callable. -/
structure DelayedMessageWrapper where
  time : Nat
  addr : Nat
  isCancelled : Bool
  message : Option Nat
deriving DecidableEq, Repr

/-- `DelayedMessageWrapper::cancel` (lines 414–417): sets the cancelled flag. -/
def DelayedMessageWrapper.cancel (w : DelayedMessageWrapper) : DelayedMessageWrapper :=
  { w with isCancelled := true }

/-- `DelayedMessageWrapper::getMessage` (lines 422–429): returns null when the
wrapper is cancelled, otherwise moves the message out.  The single call site
(line 260) destroys the wrapper immediately afterwards, so the embedding
returns the moved-out value without mutating the wrapper. -/
def DelayedMessageWrapper.getMessage (w : DelayedMessageWrapper) : Option Nat :=
  if w.isCancelled then none else w.message

/-- `DelayedMessageWrapper::operator<` (lines 410–413): compares fire times.
NOTE: `delayedQueue` is `std::multiset<std::shared_ptr<DelayedMessageWrapper>>`
(line 443), whose comparator is `std::less<std::shared_ptr<...>>`, i.e.
comparison of the owned pointer values.  This member function compares wrapper
objects, not `shared_ptr`s, so the multiset never invokes it: it is dead code,
recorded here because it documents the intended ordering. -/
def DelayedMessageWrapper.operatorLt (a b : DelayedMessageWrapper) : Bool :=
  a.time < b.time

/-- Insertion into `delayedQueue` (`delayedQueue.emplace`, line 139).  The
`std::multiset`'s comparator is `std::less<std::shared_ptr<DelayedMessageWrapper>>`,
which orders elements by the owned pointer's address, NOT by fire time; an
equal key (impossible for distinct live allocations) would be inserted at the
upper bound.  The multiset is modelled as a list sorted by `addr`. -/
def multisetInsert (w : DelayedMessageWrapper) :
    List DelayedMessageWrapper → List DelayedMessageWrapper
  | [] => [w]
  | x :: xs => if w.addr < x.addr then w :: x :: xs else x :: multisetInsert w xs

/-- The mutable state of a `Thread` object (fields, lines 440–446), plus the
two observation histories `executed` and `enqueued` (not part of the C++
object; see the module comment).  `thread` is the id of the spawned
`std::thread` (`none` models a null `unique_ptr<std::thread>`);
`threadJoined` records whether that object has been joined (`Thread::join`,
lines 103–109) — a spawned `std::thread` stays joinable, even after its
function has returned, until `join()` is called on it. -/
structure ThreadState where
  isRunning : Bool
  isAcceptingMessages : Bool
  messageQueue : List Nat
  delayedQueue : List DelayedMessageWrapper
  thread : Option Nat
  threadJoined : Bool
  executed : List Nat
  enqueued : List Nat
deriving DecidableEq, Repr

/-- A default-constructed `Thread` (lines 440–444): not running, accepting
messages, both queues empty, no spawned thread. -/
def initialState : ThreadState :=
  { isRunning := false
    isAcceptingMessages := true
    messageQueue := []
    delayedQueue := []
    thread := none
    threadJoined := false
    executed := []
    enqueued := [] }

/-- What `Thread::start` can do: return normally with the new state, throw a
`std::runtime_error`, or abort the whole program via `std::terminate`. -/
inductive StartResult where
  | ok (s : ThreadState)
  | error (e : ThreadError)
  | terminated
deriving DecidableEq, Repr

/-- `Thread::start` (lines 72–83): if the running flag is clear, set it and
assign a freshly spawned run-loop thread (id `tid` chosen by the OS) to
`thread`; otherwise throw.  The assignment at line 77 destroys the previously
owned `std::thread`, if any; `std::thread::~thread` on a thread that is still
joinable (i.e. one that was spawned and never joined — `stop` does not join)
calls `std::terminate`, so in that case the program aborts before any new
state exists. -/
def Thread.start (tid : Nat) (s : ThreadState) : StartResult :=
  if !s.isRunning then
    if s.thread.isSome && !s.threadJoined then
      .terminated
    else
      .ok { s with isRunning := true, thread := some tid, threadJoined := false }
  else
    .error .alreadyStarted

/-- `Thread::join` (lines 103–109): if a thread object exists and is still
joinable, block until it finishes; afterwards it is no longer joinable. -/
def Thread.join (s : ThreadState) : ThreadState :=
  match s.thread with
  | some _ => { s with threadJoined := true }
  | none => s

/-- `Thread::stop` (lines 87–100): if a thread object exists, clear both flags
(and notify the run-loop); otherwise throw.  Note the guard is `thread`
being non-null, not any flag. -/
def Thread.stop (s : ThreadState) : Except ThreadError ThreadState :=
  match s.thread with
  | some _ => .ok { s with isAcceptingMessages := false, isRunning := false }
  | none => .error .notStarted

/-- `Thread::send` (lines 113–126): read `isAcceptingMessages` (outside any
lock), then, under the lock, append the wrapped callable to `messageQueue`;
otherwise throw. -/
def Thread.send (m : Nat) (s : ThreadState) : Except ThreadError ThreadState :=
  if s.isAcceptingMessages then
    .ok { s with
            messageQueue := s.messageQueue ++ [m]
            enqueued := s.enqueued ++ [m] }
  else
    .error .notAcceptingMessages

/-- `Thread::sendDelayed` (lines 133–147): read `isAcceptingMessages`, then,
under the lock, compute `time = now + timeout` (passed here as the resolved
`fireTime`) and emplace a fresh `DelayedMessageWrapper` into `delayedQueue`;
`addr` is the allocator-chosen address of the new wrapper, the key the
multiset actually orders by.  Returns the state; the returned
`CancellableMessage` handle is identified by `addr`. -/
def Thread.sendDelayed (m fireTime addr : Nat) (s : ThreadState) :
    Except ThreadError ThreadState :=
  if s.isAcceptingMessages then
    let w : DelayedMessageWrapper :=
      { time := fireTime, addr := addr, isCancelled := false, message := some m }
    .ok { s with delayedQueue := multisetInsert w s.delayedQueue }
  else
    .error .notAcceptingMessages

/-- `Thread::getId` (lines 285–296): the spawned thread's id if one exists,
otherwise the calling thread's own id. -/
def Thread.getId (s : ThreadState) (callerId : Nat) : Nat :=
  match s.thread with
  | some tid => tid
  | none => callerId

/-- `Thread::getIsSameThread` (lines 318–321): `getId() == std::this_thread::get_id()`. -/
def Thread.getIsSameThread (s : ThreadState) (callerId : Nat) : Bool :=
  Thread.getId s callerId == callerId

/-- Whether `sendAsync` queued the message or ran it inline (in which case the
returned `std::future` is already satisfied when `sendAsync` returns). -/
inductive AsyncOutcome where
  | executedInline
  | queued
deriving DecidableEq, Repr

/-- `Thread::sendAsync` (lines 152–177): read `isAcceptingMessages` (outside
the lock); if the caller is on the worker's thread, execute the message
immediately (the future is satisfied on return), else enqueue it under the
lock; otherwise throw. -/
def Thread.sendAsync (m callerId : Nat) (s : ThreadState) :
    Except ThreadError (AsyncOutcome × ThreadState) :=
  if s.isAcceptingMessages then
    if Thread.getIsSameThread s callerId then
      .ok (.executedInline, { s with executed := s.executed ++ [m] })
    else
      .ok (.queued, { s with
                        messageQueue := s.messageQueue ++ [m]
                        enqueued := s.enqueued ++ [m] })
  else
    .error .notAcceptingMessages

/-- `Thread::sendSync` (lines 183–191): throw `notStarted` when the running
flag is clear (checked FIRST, before any accepting-messages check), otherwise
delegate to `sendAsync` and wait on the future. -/
def Thread.sendSync (m callerId : Nat) (s : ThreadState) :
    Except ThreadError (AsyncOutcome × ThreadState) :=
  if !s.isRunning then
    .error .notStarted
  else
    Thread.sendAsync m callerId s

/-- `Thread::sendWait` (lines 196–199): `sendSync<void>`. -/
def Thread.sendWait (m callerId : Nat) (s : ThreadState) :
    Except ThreadError (AsyncOutcome × ThreadState) :=
  Thread.sendSync m callerId s

/-- `CancellableMessage::cancel` (lines 39–45): if the weak reference is still
alive (the wrapper with this address is still in `delayedQueue`, the sole
owner of the `shared_ptr`), set its cancelled flag; otherwise do nothing. -/
def CancellableMessage.cancel (a : Nat) (s : ThreadState) : ThreadState :=
  { s with delayedQueue :=
      s.delayedQueue.map (fun w => if w.addr = a then w.cancel else w) }

/-- `CancellableMessage::isExecuted` (lines 47–50): `message.expired()` — true
exactly when the wrapper with this address no longer exists, i.e. has been
erased from `delayedQueue` (its only owner). -/
def CancellableMessage.isExecuted (a : Nat) (s : ThreadState) : Bool :=
  s.delayedQueue.all (fun w => w.addr ≠ a)

/-- `Thread::enqueueDelayedMessages` (lines 253–272): scan `delayedQueue` in
multiset order; while the current wrapper's time is strictly before `timeNow`,
move its message (null if cancelled) onto the back of `messageQueue` and erase
the wrapper; stop at the first wrapper whose time is not strictly before
`timeNow`.  Returns (remaining delayed queue, message queue, enqueued
history). -/
def Thread.enqueueDelayedMessages (timeNow : Nat)
    (dq : List DelayedMessageWrapper) (mq enq : List Nat) :
    List DelayedMessageWrapper × List Nat × List Nat :=
  match dq with
  | [] => ([], mq, enq)
  | w :: rest =>
    if w.time < timeNow then
      match w.getMessage with
      | some m => Thread.enqueueDelayedMessages timeNow rest (mq ++ [m]) (enq ++ [m])
      | none => Thread.enqueueDelayedMessages timeNow rest mq enq
    else
      (w :: rest, mq, enq)

/-- One iteration of `Thread::runLoop`'s while body (lines 221–249), at clock
reading `now`: if the running flag is clear the body does not run; otherwise
promote due delayed messages, then pop and execute the front of
`messageQueue` if non-empty (the two `queueWait` branches only block and are
no-ops on the state). -/
def Thread.loopIteration (now : Nat) (s : ThreadState) : ThreadState :=
  if s.isRunning then
    match Thread.enqueueDelayedMessages now s.delayedQueue s.messageQueue s.enqueued with
    | (dq, mq, enq) =>
      match mq with
      | [] => { s with delayedQueue := dq, messageQueue := [], enqueued := enq }
      | m :: rest =>
        { s with
            delayedQueue := dq
            messageQueue := rest
            enqueued := enq
            executed := s.executed ++ [m] }
  else
    s

/-- `Thread::runLeftovers` (lines 274–283): execute every message still in
`messageQueue`, front first, leaving it empty.  Delayed messages are not
touched. -/
def Thread.runLeftovers (s : ThreadState) : ThreadState :=
  { s with messageQueue := [], executed := s.executed ++ s.messageQueue }

/-- The operations other threads (and the worker itself) may interleave with
the run-loop while the worker is live.  `sendDelayedOp` carries the resolved
fire time and the allocator-chosen wrapper address; `loopOp` carries the clock
reading of that iteration. -/
inductive Op where
  | sendOp (m : Nat)
  | sendDelayedOp (m fireTime addr : Nat)
  | cancelOp (addr : Nat)
  | loopOp (now : Nat)
deriving DecidableEq, Repr

/-- The callable id an operation submits, if any. -/
def Op.msgId : Op → Option Nat
  | .sendOp m => some m
  | .sendDelayedOp m _ _ => some m
  | .cancelOp _ => none
  | .loopOp _ => none

/-- Apply one operation; a send that throws leaves the state unchanged (the
exception propagates to that caller, not to the worker). -/
def applyOp (s : ThreadState) : Op → ThreadState
  | .sendOp m =>
    match Thread.send m s with
    | .ok s' => s'
    | .error _ => s
  | .sendDelayedOp m t a =>
    match Thread.sendDelayed m t a s with
    | .ok s' => s'
    | .error _ => s
  | .cancelOp a => CancellableMessage.cancel a s
  | .loopOp now => Thread.loopIteration now s

/-- Run a sequence of interleaved operations. -/
def runOps (s : ThreadState) (ops : List Op) : ThreadState :=
  ops.foldl applyOp s

/-- The ids submitted by the `send` operations of a trace, in trace order. -/
def sentIds : List Op → List Nat
  | [] => []
  | .sendOp m :: ops => m :: sentIds ops
  | _ :: ops => sentIds ops

/-- The ids submitted by the `sendDelayed` operations of a trace. -/
def delayedIds : List Op → List Nat
  | [] => []
  | .sendDelayedOp m _ _ :: ops => m :: delayedIds ops
  | _ :: ops => delayedIds ops

/-- The state right after `Thread::start` succeeds on a fresh `Thread`
(spawned thread id 0). -/
def startedState : ThreadState :=
  { initialState with isRunning := true, thread := some 0 }

/-- The state right after `Thread::stop` succeeds on `startedState`. -/
def stoppedState : ThreadState :=
  { startedState with isRunning := false, isAcceptingMessages := false }

/-- Life of a worker: start (thread id 0), run the interleaved trace, stop,
then the run-loop exits and drains leftovers (lines 250, 274–283). -/
def finalState (ops : List Op) : ThreadState :=
  match Thread.stop (runOps startedState ops) with
  | .ok s => Thread.runLeftovers s
  | .error _ => runOps startedState ops

/-- `ThisThread` default construction (lines 453–457): already running, no
`std::thread` object is ever created (`ThisThread::start` runs `runLoop`
inline, line 461–464), so `thread` stays `none` for the object's whole
life. -/
def ThisThread.initialState : ThreadState :=
  { Threads.initialState with isRunning := true }

/-- `ThisThread::stop` (lines 468–472): clears both flags; nothing to join. -/
def ThisThread.stop (s : ThreadState) : ThreadState :=
  { s with isAcceptingMessages := false, isRunning := false }

/-!
### Execution of a unit of work

A callable's own behaviour is abstracted by its outcome: `Except.ok v` when it
returns `v`, `Except.error e` when it raises the exception `e` (exceptions are
identified by `Nat` codes).  Each `call` embedding returns what the C++ `call`
leaves behind: the contents of the paired `std::promise` (where there is one)
and the exception, if any, that escapes `call()` into its caller — which for
queued messages is `Thread::runLoop` line 247, where no handler exists.
-/

/-- `CallableMessage::call` (lines 341–351): invoke the callable inside
`try {...} catch (...) {}`; any raised error is swallowed, so no exception
ever escapes.  Returns the escaping exception (always `none`). -/
def CallableMessage.call (outcome : Except Nat Unit) : Option Nat :=
  match outcome with
  | .ok _ => none
  | .error _ => none

/-- `CallableMessageWithPromise::actualCall<TR>` for non-void `TR`
(lines 373–391): `try { promise.set_value(obj()) } catch (...) {
promise.set_exception(current_exception()) }` (the inner catch guards the
`set_exception` call itself).  Returns (promise contents after the call,
exception escaping to the caller — always `none`). -/
def CallableMessageWithPromise.actualCall {α : Type} (outcome : Except Nat α) :
    Option (Except Nat α) × Option Nat :=
  match outcome with
  | .ok v => (some (.ok v), none)
  | .error e => (some (.error e), none)

/-- `CallableMessageWithPromise::actualCall<void>` (lines 393–398):
`callableObject(); waitablePromise.set_value();` with NO try/catch.  If the
callable raises, the promise is never satisfied and the exception escapes
`call()` into the caller. -/
def CallableMessageWithPromise.actualCallVoid (outcome : Except Nat Unit) :
    Option (Except Nat Unit) × Option Nat :=
  match outcome with
  | .ok _ => (some (.ok ()), none)
  | .error e => (none, some e)

/-!
### Fine-grained interleaving of `send` and `stop`

`Thread::send` (lines 113–126) has two sequence points relevant to the race
with `stop`: the read of `isAcceptingMessages` at line 116 happens BEFORE the
`lock_guard` is constructed at line 118; the enqueue at line 119 happens under
the lock but never re-reads the flag.  `Thread::stop` (lines 91–95) clears
both flags entirely under the same lock.  The machine below exposes exactly
those three atomic steps (`sendDelayed` and `sendAsync` have the same
check-then-lock shape).
-/

/-- The observable state for the `send`/`stop` interleaving, plus the sending
thread's program counter (`checkPassed`: it has passed the line-116 check and
is about to lock and enqueue). -/
structure FineState where
  isAcceptingMessages : Bool
  isRunning : Bool
  messageQueue : List Nat
  checkPassed : Bool
deriving DecidableEq, Repr

/-- The three atomic steps of the race (see above). -/
inductive FineOp where
  | sendCheck
  | stopLocked
  | sendEnqueue (m : Nat)
deriving DecidableEq, Repr

/-- One atomic step: the line-116 flag read, the locked body of `stop`, or the
locked enqueue of line 119 (performed whenever the check passed earlier,
without re-reading the flag). -/
def fineStep (s : FineState) : FineOp → FineState
  | .sendCheck =>
    if s.isAcceptingMessages then { s with checkPassed := true } else s
  | .stopLocked => { s with isAcceptingMessages := false, isRunning := false }
  | .sendEnqueue m =>
    if s.checkPassed then { s with messageQueue := s.messageQueue ++ [m] } else s

/-- Run an interleaving of the fine-grained steps. -/
def fineRun (s : FineState) (ops : List FineOp) : FineState :=
  ops.foldl fineStep s

/-!
### The promotion pass, decomposed

`Thread::enqueueDelayedMessages` separates into the promoted message ids (in
scan order) and the surviving wrappers; `enqueueDelayedMessages_eq` below
proves the decomposition. -/

/-- The message ids the promotion pass at `now` appends to `messageQueue`, in
order: the non-cancelled messages of the longest strictly-due prefix of the
scan order. -/
def promotedList (now : Nat) : List DelayedMessageWrapper → List Nat
  | [] => []
  | w :: rest =>
    if w.time < now then w.getMessage.toList ++ promotedList now rest
    else []

/-- The wrappers surviving the promotion pass at `now`: the scan stops at the
first wrapper not strictly due, keeping it and everything after it. -/
def remainingList (now : Nat) :
    List DelayedMessageWrapper → List DelayedMessageWrapper
  | [] => []
  | w :: rest => if w.time < now then remainingList now rest else w :: rest

/-!
### Concrete instances used as witnesses
-/

/-- A started worker holding a single cancelled delayed wrapper (fire time 10,
address 3, message 1). -/
def c4WitnessState : ThreadState :=
  { startedState with delayedQueue := [⟨10, 3, true, some 1⟩] }

/-- A started worker holding one pending (not yet cancelled) delayed wrapper
(fire time 10, address 0, message 1). -/
def c7WitnessState : ThreadState :=
  { startedState with delayedQueue := [⟨10, 0, false, some 1⟩] }

/-- A small trace: send 1, schedule 2 (fire time 0, address 9), one loop
iteration at time 5, then send 3. -/
def c9Ops : List Op :=
  [.sendOp 1, .sendDelayedOp 2 0 9, .loopOp 5, .sendOp 3]

/-- The fine-grained race state before any step: accepting, running, empty
queue, sender not yet past the check. -/
def fineInit : FineState :=
  { isAcceptingMessages := true
    isRunning := true
    messageQueue := []
    checkPassed := false }

/-!
## Helper lemmas
-/

/-- Up to permutation, inserting into the multiset is consing. -/
theorem multisetInsert_perm (w : DelayedMessageWrapper)
    (dq : List DelayedMessageWrapper) :
    (multisetInsert w dq).Perm (w :: dq) := by
  induction dq with
  | nil => simp [multisetInsert]
  | cons x xs ih =>
    simp only [multisetInsert]
    split
    · exact List.Perm.refl _
    · exact (ih.cons x).trans (List.Perm.swap w x xs)

/-- Membership in the multiset after insertion. -/
theorem mem_multisetInsert {x w : DelayedMessageWrapper}
    {dq : List DelayedMessageWrapper} :
    x ∈ multisetInsert w dq ↔ x = w ∨ x ∈ dq := by
  rw [(multisetInsert_perm w dq).mem_iff]
  simp

/-- A wrapper only yields a message when it is not cancelled, and then yields
its stored message. -/
theorem getMessage_eq_some {w : DelayedMessageWrapper} {x : Nat}
    (h : w.getMessage = some x) : w.isCancelled = false ∧ w.message = some x := by
  unfold DelayedMessageWrapper.getMessage at h
  split at h
  · exact absurd h (by simp)
  · next hc => exact ⟨by simpa using hc, h⟩

/-- The promotion pass decomposes into the surviving wrappers and the promoted
ids appended to both the message queue and the enqueue history. -/
theorem enqueueDelayedMessages_eq (now : Nat) (dq : List DelayedMessageWrapper) :
    ∀ mq enq : List Nat,
      Thread.enqueueDelayedMessages now dq mq enq =
        (remainingList now dq, mq ++ promotedList now dq,
          enq ++ promotedList now dq) := by
  induction dq with
  | nil =>
    intro mq enq
    simp [Thread.enqueueDelayedMessages, remainingList, promotedList]
  | cons w rest ih =>
    intro mq enq
    simp only [Thread.enqueueDelayedMessages, remainingList, promotedList]
    split
    · cases hm : w.getMessage with
      | some m => simp [hm, ih, Option.toList]
      | none => simp [hm, ih, Option.toList]
    · simp

/-- Every promoted id came out of some wrapper of the delayed queue. -/
theorem mem_promotedList {now x : Nat} {dq : List DelayedMessageWrapper}
    (h : x ∈ promotedList now dq) : ∃ w ∈ dq, w.getMessage = some x := by
  induction dq with
  | nil => simp [promotedList] at h
  | cons w rest ih =>
    simp only [promotedList] at h
    split at h
    · rcases List.mem_append.mp h with h1 | h2
      · exact ⟨w, List.mem_cons_self w rest,
          by rwa [Option.mem_toList, Option.mem_def] at h1⟩
      · obtain ⟨w', hw', hm⟩ := ih h2
        exact ⟨w', List.mem_cons_of_mem _ hw', hm⟩
    · simp at h

/-- The promotion pass only removes wrappers. -/
theorem mem_remainingList {now : Nat} {w : DelayedMessageWrapper}
    {dq : List DelayedMessageWrapper} (h : w ∈ remainingList now dq) : w ∈ dq := by
  induction dq with
  | nil => simp [remainingList] at h
  | cons x rest ih =>
    simp only [remainingList] at h
    split at h
    · exact List.mem_cons_of_mem _ (ih h)
    · exact h

/-- `loopIteration` in terms of the decomposed promotion pass. -/
theorem loopIteration_eq (now : Nat) (s : ThreadState) :
    Thread.loopIteration now s =
      if s.isRunning then
        match s.messageQueue ++ promotedList now s.delayedQueue with
        | [] =>
          { s with
              delayedQueue := remainingList now s.delayedQueue
              messageQueue := []
              enqueued := s.enqueued ++ promotedList now s.delayedQueue }
        | m :: rest =>
          { s with
              delayedQueue := remainingList now s.delayedQueue
              messageQueue := rest
              enqueued := s.enqueued ++ promotedList now s.delayedQueue
              executed := s.executed ++ [m] }
      else s := by
  unfold Thread.loopIteration
  rw [enqueueDelayedMessages_eq]

/-- `runOps` unfolding. -/
theorem runOps_cons (s : ThreadState) (op : Op) (ops : List Op) :
    runOps s (op :: ops) = runOps (applyOp s op) ops := rfl

/-- No interleaved operation changes the two flags or the thread handle. -/
theorem applyOp_flags (s : ThreadState) (op : Op) :
    (applyOp s op).isAcceptingMessages = s.isAcceptingMessages ∧
    (applyOp s op).isRunning = s.isRunning ∧
    (applyOp s op).thread = s.thread := by
  cases op with
  | sendOp m =>
    cases hacc : s.isAcceptingMessages <;>
      simp [applyOp, Thread.send, hacc]
  | sendDelayedOp m t a =>
    cases hacc : s.isAcceptingMessages <;>
      simp [applyOp, Thread.sendDelayed, hacc]
  | cancelOp a => exact ⟨rfl, rfl, rfl⟩
  | loopOp now =>
    simp only [applyOp]
    rw [loopIteration_eq]
    split
    · split <;> exact ⟨rfl, rfl, rfl⟩
    · exact ⟨rfl, rfl, rfl⟩

/-- Flag preservation along a whole trace. -/
theorem runOps_flags (ops : List Op) : ∀ s : ThreadState,
    (runOps s ops).isAcceptingMessages = s.isAcceptingMessages ∧
    (runOps s ops).isRunning = s.isRunning ∧
    (runOps s ops).thread = s.thread := by
  induction ops with
  | nil => intro s; exact ⟨rfl, rfl, rfl⟩
  | cons op ops ih =>
    intro s
    have h := applyOp_flags s op
    have h2 := ih (applyOp s op)
    rw [runOps_cons]
    exact ⟨h2.1.trans h.1, h2.2.1.trans h.2.1, h2.2.2.trans h.2.2⟩

/-- `applyOp` on an accepted `send`. -/
theorem applyOp_sendOp {s : ThreadState} (m : Nat)
    (hacc : s.isAcceptingMessages = true) :
    applyOp s (.sendOp m) =
      { s with
          messageQueue := s.messageQueue ++ [m]
          enqueued := s.enqueued ++ [m] } := by
  simp [applyOp, Thread.send, hacc]

/-- `applyOp` on an accepted `sendDelayed`. -/
theorem applyOp_sendDelayedOp {s : ThreadState} (m t a : Nat)
    (hacc : s.isAcceptingMessages = true) :
    applyOp s (.sendDelayedOp m t a) =
      { s with delayedQueue :=
          multisetInsert ⟨t, a, false, some m⟩ s.delayedQueue } := by
  simp [applyOp, Thread.sendDelayed, hacc]

/-- FIFO invariant of one step: the executed history followed by the pending
main queue is exactly the enqueue history. -/
theorem applyOp_fifo (s : ThreadState) (op : Op)
    (h : s.executed ++ s.messageQueue = s.enqueued) :
    (applyOp s op).executed ++ (applyOp s op).messageQueue
      = (applyOp s op).enqueued := by
  cases op with
  | sendOp m =>
    cases hacc : s.isAcceptingMessages with
    | false => simpa [applyOp, Thread.send, hacc] using h
    | true =>
      rw [applyOp_sendOp m hacc]
      show s.executed ++ (s.messageQueue ++ [m]) = s.enqueued ++ [m]
      rw [← List.append_assoc, h]
  | sendDelayedOp m t a =>
    cases hacc : s.isAcceptingMessages with
    | false => simpa [applyOp, Thread.sendDelayed, hacc] using h
    | true => rw [applyOp_sendDelayedOp m t a hacc]; exact h
  | cancelOp a => exact h
  | loopOp now =>
    simp only [applyOp]
    rw [loopIteration_eq]
    split
    · have h2 : s.executed ++ (s.messageQueue ++ promotedList now s.delayedQueue)
          = s.enqueued ++ promotedList now s.delayedQueue := by
        rw [← List.append_assoc, h]
      split
      · next heq =>
        rw [heq] at h2
        simpa using h2
      · next m rest heq =>
        rw [heq] at h2
        show (s.executed ++ [m]) ++ rest
          = s.enqueued ++ promotedList now s.delayedQueue
        rw [List.append_assoc, ← h2]
        rfl
    · exact h

/-- FIFO invariant along a whole trace. -/
theorem runOps_fifo (ops : List Op) : ∀ s : ThreadState,
    s.executed ++ s.messageQueue = s.enqueued →
    (runOps s ops).executed ++ (runOps s ops).messageQueue
      = (runOps s ops).enqueued := by
  induction ops with
  | nil => intro s h; exact h
  | cons op ops ih =>
    intro s h
    rw [runOps_cons]
    exact ih _ (applyOp_fifo s op h)

/-- While the worker accepts messages, a trace only ever appends to the
enqueue history, and the ids of its `send` operations embed into the appended
part as a sublist (in submission order). -/
theorem runOps_enqueued_ext (ops : List Op) : ∀ s : ThreadState,
    s.isAcceptingMessages = true →
    ∃ r : List Nat,
      (runOps s ops).enqueued = s.enqueued ++ r ∧ List.Sublist (sentIds ops) r := by
  induction ops with
  | nil =>
    intro s _
    exact ⟨[], by simp [runOps], by simp [sentIds]⟩
  | cons op ops ih =>
    intro s hacc
    have hacc' : (applyOp s op).isAcceptingMessages = true :=
      (applyOp_flags s op).1.trans hacc
    obtain ⟨r, hr, hsub⟩ := ih (applyOp s op) hacc'
    rw [runOps_cons]
    cases op with
    | sendOp m =>
      refine ⟨m :: r, ?_, ?_⟩
      · rw [hr, applyOp_sendOp m hacc]
        show s.enqueued ++ [m] ++ r = s.enqueued ++ (m :: r)
        rw [List.append_assoc]
        rfl
      · exact hsub.cons₂ m
    | sendDelayedOp m t a =>
      refine ⟨r, ?_, hsub⟩
      rw [hr, applyOp_sendDelayedOp m t a hacc]
    | cancelOp a => exact ⟨r, hr, hsub⟩
    | loopOp now =>
      have he : ∃ p, (applyOp s (.loopOp now)).enqueued = s.enqueued ++ p := by
        simp only [applyOp]
        rw [loopIteration_eq]
        split
        · split
          · exact ⟨promotedList now s.delayedQueue, rfl⟩
          · exact ⟨promotedList now s.delayedQueue, rfl⟩
        · exact ⟨[], by simp⟩
      obtain ⟨p, hp⟩ := he
      refine ⟨p ++ r, ?_, hsub.trans (List.sublist_append_right p r)⟩
      rw [hr, hp, List.append_assoc]

/-- The cancel handle's map step never changes a wrapper's stored message. -/
theorem cancelMap_message_eq (a : Nat) (w : DelayedMessageWrapper) :
    (if w.addr = a then w.cancel else w).message = w.message := by
  split <;> rfl

/-- Multiplicity of an id in the enqueue history: if `x` is neither pending in
any delayed wrapper nor submitted by any delayed operation of the trace, then
each occurrence of `x` in the enqueue history comes from a `send` of the
trace. -/
theorem runOps_count (x : Nat) (ops : List Op) : ∀ s : ThreadState,
    s.isAcceptingMessages = true →
    (∀ w ∈ s.delayedQueue, w.message ≠ some x) →
    x ∉ delayedIds ops →
    ((runOps s ops).enqueued.count x
        = s.enqueued.count x + (sentIds ops).count x) ∧
    (∀ w ∈ (runOps s ops).delayedQueue, w.message ≠ some x) := by
  induction ops with
  | nil =>
    intro s _ hdq _
    exact ⟨by simp [runOps, sentIds], hdq⟩
  | cons op ops ih =>
    intro s hacc hdq hxd
    have hacc' : (applyOp s op).isAcceptingMessages = true :=
      (applyOp_flags s op).1.trans hacc
    rw [runOps_cons]
    cases op with
    | sendOp m =>
      have hs := applyOp_sendOp (s := s) m hacc
      obtain ⟨h1, h2⟩ := ih _ hacc' (by rw [hs]; exact hdq) hxd
      refine ⟨?_, h2⟩
      rw [h1, hs]
      show (s.enqueued ++ [m]).count x + (sentIds ops).count x
        = s.enqueued.count x + (([m] ++ sentIds ops) : List Nat).count x
      rw [List.count_append, List.count_append]
      omega
    | sendDelayedOp m t a =>
      have hmx : m ≠ x := by
        intro hc
        exact hxd (by rw [← hc] at hxd ⊢; exact List.mem_cons_self m (delayedIds ops))
      have hxd' : x ∉ delayedIds ops :=
        fun hc => hxd (List.mem_cons_of_mem _ hc)
      have hs := applyOp_sendDelayedOp (s := s) m t a hacc
      have hdq' : ∀ w ∈ (applyOp s (.sendDelayedOp m t a)).delayedQueue,
          w.message ≠ some x := by
        rw [hs]
        intro w hw
        rcases mem_multisetInsert.mp hw with rfl | hw'
        · show some m ≠ some x
          simpa using hmx
        · exact hdq w hw'
      obtain ⟨h1, h2⟩ := ih _ hacc' hdq' hxd'
      refine ⟨?_, h2⟩
      rw [h1, hs]
      rfl
    | cancelOp a =>
      have hdq' : ∀ w ∈ (applyOp s (.cancelOp a)).delayedQueue,
          w.message ≠ some x := by
        intro w hw
        obtain ⟨w0, hw0, rfl⟩ := List.mem_map.mp hw
        rw [cancelMap_message_eq]
        exact hdq w0 hw0
      obtain ⟨h1, h2⟩ := ih _ hacc' hdq' hxd
      exact ⟨by rw [h1]; rfl, h2⟩
    | loopOp now =>
      have hprom : x ∉ promotedList now s.delayedQueue := by
        intro hx
        obtain ⟨w, hw, hm⟩ := mem_promotedList hx
        exact hdq w hw (getMessage_eq_some hm).2
      have hcount : (s.enqueued ++ promotedList now s.delayedQueue).count x
          = s.enqueued.count x := by
        rw [List.count_append, List.count_eq_zero.mpr hprom]
        rfl
      have hrem : ∀ w ∈ remainingList now s.delayedQueue, w.message ≠ some x :=
        fun w hw => hdq w (mem_remainingList hw)
      have hstep : (applyOp s (.loopOp now)).enqueued.count x
            = s.enqueued.count x ∧
          (∀ w ∈ (applyOp s (.loopOp now)).delayedQueue, w.message ≠ some x) := by
        simp only [applyOp]
        rw [loopIteration_eq]
        split
        · split
          · exact ⟨hcount, hrem⟩
          · exact ⟨hcount, hrem⟩
        · exact ⟨rfl, hdq⟩
      obtain ⟨h1, h2⟩ := ih _ hacc' hstep.2 hxd
      exact ⟨by rw [h1, hstep.1]; rfl, h2⟩

/-- The submitted unit of work `m` can no longer run: it is not pending in the
main queue, was never executed, and every delayed wrapper still carrying it is
cancelled. -/
def NeverRuns (m : Nat) (s : ThreadState) : Prop :=
  m ∉ s.messageQueue ∧ m ∉ s.executed ∧
    ∀ w ∈ s.delayedQueue, w.getMessage ≠ some m

/-- `NeverRuns` is preserved by every operation that does not submit `m`
again: in particular the promotion pass drops a cancelled wrapper's message
instead of moving it to the main queue. -/
theorem applyOp_neverRuns {m : Nat} {s : ThreadState} (op : Op)
    (h : NeverRuns m s) (hop : op.msgId ≠ some m) :
    NeverRuns m (applyOp s op) := by
  obtain ⟨hq, he, hd⟩ := h
  cases op with
  | sendOp m' =>
    have hm' : m' ≠ m := by
      intro hc
      exact hop (by rw [hc]; rfl)
    cases hacc : s.isAcceptingMessages with
    | false =>
      have hs : applyOp s (.sendOp m') = s := by
        simp [applyOp, Thread.send, hacc]
      rw [hs]
      exact ⟨hq, he, hd⟩
    | true =>
      rw [applyOp_sendOp m' hacc]
      refine ⟨?_, he, hd⟩
      intro hc
      rcases List.mem_append.mp hc with h1 | h1
      · exact hq h1
      · exact hm' ((List.mem_singleton.mp h1).symm)
  | sendDelayedOp m' t a =>
    have hm' : m' ≠ m := by
      intro hc
      exact hop (by rw [hc]; rfl)
    cases hacc : s.isAcceptingMessages with
    | false =>
      have hs : applyOp s (.sendDelayedOp m' t a) = s := by
        simp [applyOp, Thread.sendDelayed, hacc]
      rw [hs]
      exact ⟨hq, he, hd⟩
    | true =>
      rw [applyOp_sendDelayedOp m' t a hacc]
      refine ⟨hq, he, ?_⟩
      intro w hw
      rcases mem_multisetInsert.mp hw with rfl | hw'
      · show DelayedMessageWrapper.getMessage ⟨t, a, false, some m'⟩ ≠ some m
        simp [DelayedMessageWrapper.getMessage]
        exact hm'
      · exact hd w hw'
  | cancelOp a =>
    refine ⟨hq, he, ?_⟩
    intro w hw
    obtain ⟨w0, hw0, rfl⟩ := List.mem_map.mp hw
    by_cases ha : w0.addr = a
    · rw [if_pos ha]
      show DelayedMessageWrapper.getMessage w0.cancel ≠ some m
      simp [DelayedMessageWrapper.cancel, DelayedMessageWrapper.getMessage]
    · rw [if_neg ha]
      exact hd w0 hw0
  | loopOp now =>
    simp only [applyOp]
    rw [loopIteration_eq]
    split
    · have hprom : m ∉ promotedList now s.delayedQueue := by
        intro hx
        obtain ⟨w, hw, hm⟩ := mem_promotedList hx
        exact hd w hw hm
      have hmq : m ∉ s.messageQueue ++ promotedList now s.delayedQueue := by
        intro hc
        rcases List.mem_append.mp hc with h1 | h1
        · exact hq h1
        · exact hprom h1
      have hrem : ∀ w ∈ remainingList now s.delayedQueue,
          w.getMessage ≠ some m :=
        fun w hw => hd w (mem_remainingList hw)
      split
      · exact ⟨by simp, he, hrem⟩
      · next m' rest heq =>
        have hm' : m ∉ (m' :: rest) := by rw [← heq]; exact hmq
        refine ⟨?_, ?_, hrem⟩
        · intro hc
          exact hm' (List.mem_cons_of_mem m' hc)
        · intro hc
          rcases List.mem_append.mp hc with h1 | h1
          · exact he h1
          · exact hm' (by rw [List.mem_singleton.mp h1]; exact List.mem_cons_self m' rest)
    · exact ⟨hq, he, hd⟩

/-- `NeverRuns` along a whole trace. -/
theorem runOps_neverRuns {m : Nat} (ops : List Op) : ∀ s : ThreadState,
    NeverRuns m s → (∀ op ∈ ops, op.msgId ≠ some m) →
    NeverRuns m (runOps s ops) := by
  induction ops with
  | nil => intro s h _; exact h
  | cons op ops ih =>
    intro s h hops
    rw [runOps_cons]
    exact ih _ (applyOp_neverRuns op h (hops op (List.mem_cons_self op ops)))
      (fun op' hop' => hops op' (List.mem_cons_of_mem op hop'))

/-- Cancelling the handle of the only wrapper(s) that carry `m` establishes
`NeverRuns m`. -/
theorem cancel_neverRuns {s : ThreadState} {a m : Nat}
    (honly : ∀ w ∈ s.delayedQueue, w.message = some m → w.addr = a)
    (hq : m ∉ s.messageQueue) (he : m ∉ s.executed) :
    NeverRuns m (CancellableMessage.cancel a s) := by
  refine ⟨hq, he, ?_⟩
  intro w hw
  obtain ⟨w0, hw0, rfl⟩ := List.mem_map.mp hw
  by_cases ha : w0.addr = a
  · rw [if_pos ha]
    show DelayedMessageWrapper.getMessage w0.cancel ≠ some m
    simp [DelayedMessageWrapper.cancel, DelayedMessageWrapper.getMessage]
  · rw [if_neg ha]
    intro hc
    exact ha (honly w0 hw0 (getMessage_eq_some hc).2)

/-- Mapping a function that fixes every element of a list is the identity. -/
theorem map_eq_self_of_mem {α : Type} (f : α → α) :
    ∀ l : List α, (∀ x ∈ l, f x = x) → l.map f = l := by
  intro l
  induction l with
  | nil => intro _; rfl
  | cons x xs ih =>
    intro h
    simp only [List.map_cons]
    rw [h x (List.mem_cons_self x xs), ih (fun y hy => h y (List.mem_cons_of_mem x hy))]

/-- The handle's cancellation map is idempotent on the delayed queue. -/
theorem cancel_idem_list (a : Nat) (dq : List DelayedMessageWrapper) :
    (dq.map (fun w => if w.addr = a then w.cancel else w)).map
        (fun w => if w.addr = a then w.cancel else w)
      = dq.map (fun w => if w.addr = a then w.cancel else w) := by
  induction dq with
  | nil => rfl
  | cons w rest ih =>
    simp only [List.map_cons]
    rw [ih]
    by_cases h : w.addr = a
    · simp [h, DelayedMessageWrapper.cancel]
    · simp [h]

/-- `Thread.stop` on a started worker succeeds and leaves every queue and
history untouched (it only clears the two flags). -/
theorem stop_fields {s : ThreadState} {tid : Nat} (h : s.thread = some tid) :
    ∃ s' : ThreadState, Thread.stop s = .ok s' ∧
      s'.messageQueue = s.messageQueue ∧ s'.delayedQueue = s.delayedQueue ∧
      s'.executed = s.executed ∧ s'.enqueued = s.enqueued := by
  cases s with
  | mk r acc mq dq th tj ex enq =>
    cases th with
    | none => exact absurd h (by simp)
    | some t => exact ⟨_, rfl, rfl, rfl, rfl, rfl⟩

/-!
## Claim theorems
-/

/-- C1: The claim states that the delayed collection is at all times ordered
by scheduled fire time.  The code violates it: `delayedQueue` is a
`std::multiset` of `shared_ptr`s compared with `std::less<shared_ptr>`
(pointer address); `DelayedMessageWrapper::operator<` is never invoked.  With
the first wrapper allocated at address 5 (fire time 10) and the second at
address 7 (fire time 3) — a perfectly possible allocator outcome — the state
reached by two `sendDelayed` calls iterates as fire times `[10, 3]`: sorted by
address, not by time, and opposite to the dead `operator<`. -/
theorem delayedQueue_not_time_ordered :
    (runOps startedState
        [.sendDelayedOp 1 10 5, .sendDelayedOp 2 3 7]).delayedQueue.map
      DelayedMessageWrapper.time = [10, 3] ∧
    ¬ List.Sorted (· ≤ ·)
      ((runOps startedState
          [.sendDelayedOp 1 10 5, .sendDelayedOp 2 3 7]).delayedQueue.map
        DelayedMessageWrapper.time) ∧
    List.Sorted (· ≤ ·)
      ((runOps startedState
          [.sendDelayedOp 1 10 5, .sendDelayedOp 2 3 7]).delayedQueue.map
        DelayedMessageWrapper.addr) ∧
    DelayedMessageWrapper.operatorLt ⟨3, 7, false, some 2⟩ ⟨10, 5, false, some 1⟩
      = true := by
  refine ⟨by decide, by decide, by decide, by decide⟩

/-- C2: The claim states each run-loop iteration promotes every delayed item
with fire time at or before now and that afterwards no due item remains.  The
code violates it twice.  (a) The scan runs in multiset (address) order and
stops at the first wrapper whose time is not strictly before now, so with
wrappers at addresses `[5, 7]` carrying times `[10, 3]`, a pass at `now = 5`
promotes nothing and the due item (time 3 < 5) stays in the delayed
collection.  (b) The comparison is strict (`getTime() < timeNow`, line 258),
so an item whose fire time equals now is never promoted. -/
theorem promotion_pass_leaves_due_item :
    (runOps startedState
        [.sendDelayedOp 1 10 5, .sendDelayedOp 2 3 7, .loopOp 5]).delayedQueue.map
      DelayedMessageWrapper.time = [10, 3] ∧
    (runOps startedState
        [.sendDelayedOp 1 10 5, .sendDelayedOp 2 3 7, .loopOp 5]).messageQueue
      = [] ∧
    (3 : Nat) < 5 ∧
    Thread.enqueueDelayedMessages 6 [⟨6, 9, false, some 4⟩] [] []
      = ([⟨6, 9, false, some 4⟩], [], []) := by
  refine ⟨by decide, by decide, by decide, by decide⟩

/-- C3: The claim states that an error raised by any unit of work submitted
with a paired waitable handle is captured into the handle exactly once and
never propagates into the worker's run-loop, including void-returning
callables.  The code violates it for void: `actualCall<void>` (lines 393–398)
has no try/catch, so a throwing void callable (here raising exception 7)
leaves the promise unsatisfied and the exception escapes `call()` into
`runLoop`, which has no handler around `next->call()` (line 247).  The
non-void instantiation and the plain fire-and-forget message, by contrast,
never let an exception escape. -/
theorem void_promise_error_escapes :
    CallableMessageWithPromise.actualCallVoid (Except.error 7)
      = (none, some 7) ∧
    CallableMessageWithPromise.actualCall (Except.error 7 : Except Nat Nat)
      = (some (Except.error 7), none) ∧
    CallableMessage.call (Except.error 7) = none :=
  ⟨rfl, rfl, rfl⟩

/-- C4 counterexample: The claim states that after cancelling a delayed
item's handle before its delay elapses, `isExecuted()` returns false forever.
On the trace `sendDelayed(1, fire 10, addr 0); cancel; loop pass at 20`, the
cancelled wrapper is erased by the promotion pass (line 265) without its work
ever running, the weak reference expires, and `isExecuted()` flips to true —
refuting the claim (it was still false right after the cancel). -/
theorem isExecuted_goes_true_after_cancel_cex :
    CancellableMessage.isExecuted 0
        (runOps startedState [.sendDelayedOp 1 10 0, .cancelOp 0]) = false ∧
    CancellableMessage.isExecuted 0
        (runOps startedState [.sendDelayedOp 1 10 0, .cancelOp 0, .loopOp 20])
      = true ∧
    (runOps startedState
        [.sendDelayedOp 1 10 0, .cancelOp 0, .loopOp 20]).executed = [] ∧
    (runOps startedState
        [.sendDelayedOp 1 10 0, .cancelOp 0, .loopOp 20]).enqueued = [] := by
  refine ⟨by decide, by decide, by decide, by decide⟩

/-- C4 amended: if the handle is cancelled before the item is promoted, the
work indeed never executes (nothing is enqueued), and `isExecuted()` is false
only while the wrapper remains in the delayed collection; once a run-loop
pass after the fire time erases the (cancelled) wrapper, `isExecuted()`
returns true regardless of the cancellation — matching the spec's own
description of `isExecuted` ("true once the wrapper no longer exists"). -/
theorem cancelled_wrapper_erased_on_promotion (s : ThreadState)
    (w : DelayedMessageWrapper) (now : Nat)
    (hrun : s.isRunning = true) (hdq : s.delayedQueue = [w])
    (hc : w.isCancelled = true) (ht : w.time < now) :
    CancellableMessage.isExecuted w.addr s = false ∧
    (Thread.loopIteration now s).delayedQueue = [] ∧
    CancellableMessage.isExecuted w.addr (Thread.loopIteration now s) = true ∧
    (Thread.loopIteration now s).enqueued = s.enqueued := by
  have h1 : CancellableMessage.isExecuted w.addr s = false := by
    unfold CancellableMessage.isExecuted
    rw [hdq]
    simp
  have hprom : promotedList now [w] = [] := by
    simp [promotedList, ht, DelayedMessageWrapper.getMessage, hc]
  have hrem : remainingList now [w] = [] := by
    simp [remainingList, ht]
  have hloop : (Thread.loopIteration now s).delayedQueue = [] ∧
      (Thread.loopIteration now s).enqueued = s.enqueued := by
    rw [loopIteration_eq, if_pos hrun, hdq, hprom, hrem]
    cases s.messageQueue with
    | nil => exact ⟨rfl, by simp⟩
    | cons m rest => exact ⟨rfl, by simp⟩
  have h3 : CancellableMessage.isExecuted w.addr (Thread.loopIteration now s)
      = true := by
    unfold CancellableMessage.isExecuted
    rw [hloop.1]
    rfl
  exact ⟨h1, hloop.1, h3, hloop.2⟩

/-- C4 amended, witnessed on `c4WitnessState` at clock 20. -/
theorem cancelled_wrapper_erased_on_promotion_witness :
    CancellableMessage.isExecuted 3 c4WitnessState = false ∧
    (Thread.loopIteration 20 c4WitnessState).delayedQueue = [] ∧
    CancellableMessage.isExecuted 3 (Thread.loopIteration 20 c4WitnessState)
      = true ∧
    (Thread.loopIteration 20 c4WitnessState).enqueued
      = c4WitnessState.enqueued :=
  cancelled_wrapper_erased_on_promotion c4WitnessState ⟨10, 3, true, some 1⟩ 20
    rfl rfl rfl (by decide)

/-- C5 counterexample: The claim states every send variant invoked after
`stop` fails with the not-accepting-messages error.  In the code, `stop`
clears the running flag, and `sendSync` checks `getIsRunning()` FIRST
(line 185), so `sendSync`/`sendWait` called after `stop` fail with the
not-started error instead. -/
theorem sendSync_after_stop_wrong_error_cex :
    Thread.start 0 initialState = StartResult.ok startedState ∧
    Thread.stop startedState = Except.ok stoppedState ∧
    Thread.sendSync 1 99 stoppedState = Except.error ThreadError.notStarted ∧
    Thread.sendWait 1 99 stoppedState = Except.error ThreadError.notStarted ∧
    ThreadError.notStarted ≠ ThreadError.notAcceptingMessages :=
  ⟨rfl, rfl, rfl, rfl, by decide⟩

/-- C5 amended: after `stop` (both flags false), `send`, `sendDelayed` and
`sendAsync` fail with the not-accepting-messages error, while `sendSync` and
`sendWait` fail with the not-started error (the running-flag check comes
first); and on a worker that has never been started (running flag false),
`sendSync`/`sendWait` fail with the not-started error. -/
theorem send_variants_after_stop (s s₂ : ThreadState) (m t a callerId : Nat)
    (hacc : s.isAcceptingMessages = false) (hrun : s.isRunning = false)
    (hrun₂ : s₂.isRunning = false) :
    Thread.send m s = Except.error ThreadError.notAcceptingMessages ∧
    Thread.sendDelayed m t a s
      = Except.error ThreadError.notAcceptingMessages ∧
    Thread.sendAsync m callerId s
      = Except.error ThreadError.notAcceptingMessages ∧
    Thread.sendSync m callerId s = Except.error ThreadError.notStarted ∧
    Thread.sendWait m callerId s = Except.error ThreadError.notStarted ∧
    Thread.sendSync m callerId s₂ = Except.error ThreadError.notStarted := by
  refine ⟨?_, ?_, ?_, ?_, ?_, ?_⟩ <;>
    simp [Thread.send, Thread.sendDelayed, Thread.sendAsync, Thread.sendSync,
      Thread.sendWait, hacc, hrun, hrun₂]

/-- C5 amended, witnessed on the started-then-stopped worker and on a fresh
never-started worker. -/
theorem send_variants_after_stop_witness :
    Thread.send 1 stoppedState
      = Except.error ThreadError.notAcceptingMessages ∧
    Thread.sendDelayed 1 10 0 stoppedState
      = Except.error ThreadError.notAcceptingMessages ∧
    Thread.sendAsync 1 99 stoppedState
      = Except.error ThreadError.notAcceptingMessages ∧
    Thread.sendSync 1 99 stoppedState = Except.error ThreadError.notStarted ∧
    Thread.sendWait 1 99 stoppedState = Except.error ThreadError.notStarted ∧
    Thread.sendSync 1 99 initialState = Except.error ThreadError.notStarted :=
  send_variants_after_stop stoppedState initialState 1 10 0 99 rfl rfl rfl

/-- C6 counterexample: The claim states `start` fails with the
already-started error when the worker is in the Running OR Stopping state.
After `stop`, the worker is in the Stopping state: both flags cleared, the
never-joined thread object still present (`stop` does not join; in the
Stopping state a join cannot have completed).  `start` consults only the
running flag (line 74), so it does NOT raise the already-started error:
it reaches the assignment at line 77, whose destruction of the still-joinable
`std::thread` calls `std::terminate` — the program aborts. -/
theorem start_while_stopping_terminates_cex :
    Thread.stop startedState = Except.ok stoppedState ∧
    stoppedState.thread = some 0 ∧
    stoppedState.threadJoined = false ∧
    Thread.start 1 stoppedState = StartResult.terminated ∧
    StartResult.terminated ≠ StartResult.error ThreadError.alreadyStarted :=
  ⟨rfl, rfl, rfl, rfl, by decide⟩

/-- C6 amended: `start` fails with the already-started error exactly when the
running flag is set (the Running state).  When the flag is clear but a
never-joined thread object still exists (Stopping, or Stopped before a join),
`start` raises nothing: the line-77 reassignment destroys a joinable
`std::thread` and `std::terminate` aborts the program.  `start` returns
normally in the remaining states (never started, or stopped and joined).
`stop` fails with the not-started error exactly when no thread object exists,
i.e. the worker was never started. -/
theorem start_stop_failure_characterisation (tid : Nat) (s : ThreadState) :
    (Thread.start tid s = StartResult.error ThreadError.alreadyStarted
      ↔ s.isRunning = true) ∧
    (Thread.start tid s = StartResult.terminated
      ↔ (s.isRunning = false ∧ s.thread.isSome = true ∧ s.threadJoined = false)) ∧
    ((∃ s' : ThreadState, Thread.start tid s = StartResult.ok s')
      ↔ (s.isRunning = false ∧ (s.thread.isSome = false ∨ s.threadJoined = true))) ∧
    (Thread.stop s = Except.error ThreadError.notStarted ↔ s.thread = none) := by
  refine ⟨?_, ?_, ?_, ?_⟩
  · cases hrun : s.isRunning with
    | false =>
      simp [Thread.start, hrun]
      split <;> simp
    | true => simp [Thread.start, hrun]
  · cases hrun : s.isRunning <;>
      cases hth : s.thread <;>
      cases hj : s.threadJoined <;>
      simp [Thread.start, hrun, hth, hj]
  · cases hrun : s.isRunning <;>
      cases hth : s.thread <;>
      cases hj : s.threadJoined <;>
      simp [Thread.start, hrun, hth, hj]
  · cases hth : s.thread <;> simp [Thread.stop, hth]

/-- C7: Cancelling the handle of a delayed unit of work `m` (the wrapper at
address `a`, the only wrapper carrying `m`) before its promotion guarantees
`m` never executes, over any continuation of the run that does not resubmit
`m`; cancelling when no wrapper with that address exists any more (promoted
or destroyed) is a silent no-op on the whole state; and cancelling twice is
the same as cancelling once. -/
theorem cancel_before_promotion_never_executes
    (s s₂ s₃ : ThreadState) (a m : Nat) (ops : List Op)
    (honly : ∀ w ∈ s.delayedQueue, w.message = some m → w.addr = a)
    (hq : m ∉ s.messageQueue) (he : m ∉ s.executed)
    (hops : ∀ op ∈ ops, op.msgId ≠ some m)
    (hgone : ∀ w ∈ s₂.delayedQueue, w.addr ≠ a) :
    m ∉ (runOps (CancellableMessage.cancel a s) ops).executed ∧
    CancellableMessage.cancel a s₂ = s₂ ∧
    CancellableMessage.cancel a (CancellableMessage.cancel a s₃)
      = CancellableMessage.cancel a s₃ := by
  refine ⟨?_, ?_, ?_⟩
  · exact (runOps_neverRuns ops _ (cancel_neverRuns honly hq he) hops).2.1
  · have hmap : s₂.delayedQueue.map (fun w => if w.addr = a then w.cancel else w)
        = s₂.delayedQueue :=
      map_eq_self_of_mem _ _ (fun w hw => if_neg (hgone w hw))
    unfold CancellableMessage.cancel
    rw [hmap]
  · unfold CancellableMessage.cancel
    rw [cancel_idem_list]

/-- C7, witnessed: worker with one pending wrapper (address 0, message 1),
cancelled and then driven through a loop pass at time 20; an unrelated state
whose only wrapper sits at address 5. -/
theorem cancel_before_promotion_never_executes_witness :
    1 ∉ (runOps (CancellableMessage.cancel 0 c7WitnessState)
        [.loopOp 20, .sendOp 2, .loopOp 21]).executed ∧
    CancellableMessage.cancel 0
        { startedState with delayedQueue := [⟨10, 5, false, some 9⟩] }
      = { startedState with delayedQueue := [⟨10, 5, false, some 9⟩] } ∧
    CancellableMessage.cancel 0 (CancellableMessage.cancel 0 c7WitnessState)
      = CancellableMessage.cancel 0 c7WitnessState :=
  cancel_before_promotion_never_executes c7WitnessState
    { startedState with delayedQueue := [⟨10, 5, false, some 9⟩] }
    c7WitnessState 0 1 [.loopOp 20, .sendOp 2, .loopOp 21]
    (by decide) (by decide) (by decide) (by decide) (by decide)

/-- C8 counterexample: The claim states no interleaving with `stop` can let a
submission pass the accepting-messages check and then enqueue after the flag
has been cleared.  The code violates it: the check (line 116) happens before
the lock is taken (line 118), so the interleaving check → locked stop →
locked enqueue ends with the flag cleared AND the message in the queue. -/
theorem stop_between_check_and_enqueue_cex :
    fineRun fineInit [.sendCheck, .stopLocked, .sendEnqueue 1]
      = { isAcceptingMessages := false
          isRunning := false
          messageQueue := [1]
          checkPassed := true } :=
  rfl

/-- C8 amended: the accepting-messages check is read before the lock is
acquired and the enqueue (under the lock) never re-reads the flag, so for any
state in which the check passes, the interleaving check → stop → enqueue
leaves the flag cleared while the message still lands in the queue. -/
theorem send_check_not_under_lock (s : FineState) (m : Nat)
    (hacc : s.isAcceptingMessages = true) :
    (fineRun s [.sendCheck, .stopLocked, .sendEnqueue m]).isAcceptingMessages
      = false ∧
    (fineRun s [.sendCheck, .stopLocked, .sendEnqueue m]).messageQueue
      = s.messageQueue ++ [m] := by
  simp [fineRun, fineStep, hacc]

/-- C8 amended, witnessed on the initial fine-grained state. -/
theorem send_check_not_under_lock_witness :
    (fineRun fineInit [.sendCheck, .stopLocked, .sendEnqueue 1]).isAcceptingMessages
      = false ∧
    (fineRun fineInit [.sendCheck, .stopLocked, .sendEnqueue 1]).messageQueue
      = fineInit.messageQueue ++ [1] :=
  send_check_not_under_lock fineInit 1 rfl

/-- C9: For a worker started, driven by any trace of accepted submissions and
loop iterations, then stopped and drained: execution order is exactly the
main queue's append order (`executed = enqueued`, which interleaves sends
with promoted delayed items); the `send`-submitted ids embed into the
execution history as a sublist in submission order; and, when the sent ids
are distinct and disjoint from the delayed ids, each sent id executes exactly
once. -/
theorem sends_execute_exactly_once_in_order (ops : List Op) (x : Nat)
    (hnd : (sentIds ops).Nodup)
    (hdis : ∀ y ∈ sentIds ops, y ∉ delayedIds ops)
    (hx : x ∈ sentIds ops) :
    (finalState ops).executed = (finalState ops).enqueued ∧
    List.Sublist (sentIds ops) ((finalState ops).executed) ∧
    (finalState ops).executed.count x = 1 := by
  have hthread : (runOps startedState ops).thread = some 0 :=
    (runOps_flags ops startedState).2.2
  obtain ⟨s', hs', hmq, _, hex, henq'⟩ := stop_fields hthread
  have hfinal : finalState ops = Thread.runLeftovers s' := by
    unfold finalState
    rw [hs']
  have hfifo : (runOps startedState ops).executed
        ++ (runOps startedState ops).messageQueue
      = (runOps startedState ops).enqueued :=
    runOps_fifo ops startedState rfl
  have hexec : (finalState ops).executed = (runOps startedState ops).enqueued := by
    rw [hfinal]
    show s'.executed ++ s'.messageQueue = _
    rw [hex, hmq]
    exact hfifo
  have henq : (finalState ops).enqueued = (runOps startedState ops).enqueued := by
    rw [hfinal]
    show s'.enqueued = _
    rw [henq']
  obtain ⟨r, hr, hsub⟩ := runOps_enqueued_ext ops startedState rfl
  have hr' : (runOps startedState ops).enqueued = r := by
    rw [hr]
    rfl
  have hcount := runOps_count x ops startedState rfl
    (by intro w hw; simp [startedState, initialState] at hw) (hdis x hx)
  refine ⟨hexec.trans henq.symm, ?_, ?_⟩
  · rw [hexec, hr']
    exact hsub
  · rw [hexec, hcount.1]
    show 0 + (sentIds ops).count x = 1
    rw [Nat.zero_add]
    exact List.count_eq_one_of_mem hnd hx

/-- C9, witnessed on the trace `c9Ops` (sends 1 and 3 around a delayed 2 that
becomes due): execution order is `[1, 2, 3]`. -/
theorem sends_execute_exactly_once_in_order_witness :
    (finalState c9Ops).executed = (finalState c9Ops).enqueued ∧
    List.Sublist (sentIds c9Ops) ((finalState c9Ops).executed) ∧
    (finalState c9Ops).executed.count 3 = 1 :=
  sends_execute_exactly_once_in_order c9Ops 3 (by decide) (by decide) (by decide)

/-- C10: On any worker whose `thread` handle is null — a plain `Thread`
before `start`, or a `ThisThread` at any time (its `start` never creates a
`std::thread` object) — `getId()` returns the caller's own id, so the
same-thread check passes for EVERY caller; consequently an accepted
`sendAsync` executes the callable immediately inline and returns an
already-satisfied future, leaving the message queue untouched. -/
theorem sendAsync_inline_when_no_spawned_thread (s : ThreadState)
    (m callerId : Nat) (hthread : s.thread = none)
    (hacc : s.isAcceptingMessages = true) :
    Thread.getId s callerId = callerId ∧
    Thread.getIsSameThread s callerId = true ∧
    Thread.sendAsync m callerId s
      = Except.ok (AsyncOutcome.executedInline,
          { s with executed := s.executed ++ [m] }) := by
  have h1 : Thread.getId s callerId = callerId := by
    unfold Thread.getId
    rw [hthread]
  have h2 : Thread.getIsSameThread s callerId = true := by
    unfold Thread.getIsSameThread
    rw [h1]
    simp
  refine ⟨h1, h2, ?_⟩
  simp [Thread.sendAsync, hacc, h2]

/-- C10, witnessed on a `ThisThread` with caller id 42 (distinct from
whatever thread runs the loop). -/
theorem sendAsync_inline_when_no_spawned_thread_witness :
    Thread.getId ThisThread.initialState 42 = 42 ∧
    Thread.getIsSameThread ThisThread.initialState 42 = true ∧
    Thread.sendAsync 7 42 ThisThread.initialState
      = Except.ok (AsyncOutcome.executedInline,
          { ThisThread.initialState with executed := [7] }) :=
  sendAsync_inline_when_no_spawned_thread ThisThread.initialState 7 42 rfl rfl

end Threads
